import Mathlib

/-!
Verification of the DatavizFT collection / reconciliation / skill-tagging
pipeline.  The definitions below are shallow embeddings of the Python
sources under `src/backend` and `src/backend_v2`; the theorems check the
testable properties of the specification against them.
-/

namespace DatavizFT

/-! ## Character classes (fragment of Python `re` semantics)

Python's `\w` and `\s` are Unicode-aware.  The texts and patterns handled
by this code base are ASCII apart from the few folded characters listed in
`normaliser_unicode`; the classes below model the fragment of `\w` / `\s`
covering ASCII plus the non-breaking space (U+00A0, which Python counts as
whitespace). -/

/-- Fragment of Python regex `\w`: ASCII letters, digits and underscore. -/
def isWordChar (c : Char) : Bool :=
  c.isAlphanum || c = '_'

/-- Fragment of Python regex `\s`: ASCII whitespace plus the non-breaking
space U+00A0 (Unicode whitespace in Python). -/
def isSpaceChar (c : Char) : Bool :=
  c = ' ' || c = '\t' || c = '\n' || c = '\r' || c = '\x0b' || c = '\x0c' || c = '\u00A0'

/-- Python `str.lower` on the ASCII fragment used by the pipeline. -/
def pyLower (s : String) : String :=
  String.mk (s.toList.map Char.toLower)

/-! ## Regular-expression engine

A small backtracking engine covering exactly the constructs used by
`creer_patterns_recherche` in `src/backend/tools/text_processor.py`:
literals, character classes, concatenation, alternation, Kleene star
(for `\s*` and `.*`), the word boundary `\b`, end of string `$`,
negative/positive lookahead, and the single-character positive lookbehind
used by the `c#` pattern. -/

inductive RE where
  | eps : RE
  | lit : Char → RE
  | cls : (Char → Bool) → RE
  | seq : RE → RE → RE
  | alt : RE → RE → RE
  | star : RE → RE
  | wordB : RE
  | eos : RE
  | nla : RE → RE
  | pla : RE → RE
  | plb : (Char → Bool) → RE

/-- Concatenation of lists of lists. -/
def lflat {α : Type} (ls : List (List α)) : List α :=
  ls.foldr (fun a b => a ++ b) []

/-- Whether position `i` of `s` holds a word character. -/
def wordAt (s : List Char) (i : Nat) : Bool :=
  match s.get? i with
  | some c => isWordChar c
  | none => false

/-- Whether a word character precedes position `i` of `s`. -/
def wordBefore (s : List Char) (i : Nat) : Bool :=
  match i with
  | 0 => false
  | j + 1 => wordAt s j

/-- Python `\b`: a word/non-word transition at position `i`. -/
def boundaryAt (s : List Char) (i : Nat) : Bool :=
  wordBefore s i != wordAt s i

/-- Iterate a step function to collect the positions reachable by zero or
more repetitions of a pattern (used for Kleene star); `fuel` bounds the
iteration, `s.length + 1` positions always suffice. -/
def starIter (f : Nat → List Nat) : Nat → List Nat → List Nat
  | 0, acc => acc
  | fuel + 1, acc =>
    let next := (lflat (acc.map f)).filter (fun j => !(acc.contains j))
    if next.isEmpty then acc else starIter f fuel (acc ++ next)

/-- End positions of matches of `r` starting at position `i` of `s`
(backtracking semantics: all alternatives are collected). -/
def endsAt (s : List Char) : RE → Nat → List Nat
  | .eps, i => [i]
  | .lit c, i =>
    match s.get? i with
    | some d => if d = c then [i + 1] else []
    | none => []
  | .cls p, i =>
    match s.get? i with
    | some d => if p d then [i + 1] else []
    | none => []
  | .seq a b, i => lflat ((endsAt s a i).map (fun j => endsAt s b j))
  | .alt a b, i => endsAt s a i ++ endsAt s b i
  | .star a, i => starIter (fun j => endsAt s a j) (s.length + 1) [i]
  | .wordB, i => if boundaryAt s i then [i] else []
  | .eos, i => if i = s.length then [i] else []
  | .nla a, i => if (endsAt s a i).isEmpty then [i] else []
  | .pla a, i => if (endsAt s a i).isEmpty then [] else [i]
  | .plb p, i =>
    match i with
    | 0 => []
    | j + 1 =>
      match s.get? j with
      | some c => if p c then [i] else []
      | none => []

/-- A match of `r` starts at position `i` of `s`. -/
def reMatchAt (r : RE) (s : List Char) (i : Nat) : Bool :=
  !(endsAt s r i).isEmpty

/-- Python `re.search`: a match of `r` starts somewhere in `s`. -/
def reSearch (r : RE) (s : List Char) : Bool :=
  (List.range (s.length + 1)).any (fun i => reMatchAt r s i)

/-- Sequence of literal characters. -/
def RE.ofList : List Char → RE
  | [] => .eps
  | c :: cs => .seq (.lit c) (RE.ofList cs)

/-- Literal string pattern (also the meaning of a `re.escape`d string). -/
def RE.str (s : String) : RE := RE.ofList s.toList

/-- Word-anchored literal: the pattern `\b…\b`. -/
def RE.word (s : String) : RE := .seq .wordB (.seq (RE.str s) .wordB)

/-- The pattern `\s`. -/
def RE.sp : RE := .cls isSpaceChar

/-- The pattern `\s*`. -/
def RE.spStar : RE := .star RE.sp

/-- The pattern `.` (any character except newline, Python default). -/
def RE.dot : RE := .cls (fun c => c ≠ '\n')

/-- The pattern `.*`. -/
def RE.dotStar : RE := .star RE.dot

/-- Negative lookahead `(?!\s*(?:a|b))` following a word-anchored literal,
the shape shared by the `ts`, `win`, `vue`, `git` and `web dev` patterns. -/
def RE.wordNla (w a b : String) : RE :=
  .seq .wordB (.seq (RE.str w) (.seq .wordB
    (.nla (.seq RE.spStar (.alt (RE.str a) (RE.str b))))))

/-! ## `text_processor.py` — Unicode normalisation and cleaning -/

/-- The replacement table of `normaliser_unicode` (dict insertion order):
non-breaking space, en/em dashes, curly quotes, ellipsis, guillemets. -/
def remplacements : List (Char × List Char) :=
  [('\u00A0', [' ']), ('–', ['-']), ('—', ['-']),
   ('‘', ['\x27']), ('’', ['\x27']),
   ('“', ['\x22']), ('”', ['\x22']),
   ('…', ['.', '.', '.']),
   ('«', ['\x22']), ('»', ['\x22'])]

/-- Python `str.replace` for a single-character pattern. -/
def applyRemplacement (k : Char) (v : List Char) (l : List Char) : List Char :=
  lflat (l.map (fun c => if c = k then v else [c]))

/-- Fragment of Python `unicodedata.normalize("NFKC", ·)`: NFKC is the
identity on ASCII and maps the non-breaking space U+00A0 to a plain space;
on the remaining characters reachable in this pipeline (after
`remplacements` every folded character is gone) it is modelled as the
identity. -/
def nfkcChar (c : Char) : List Char :=
  if c.toNat < 128 then [c]
  else if c = '\u00A0' then [' ']
  else [c]

/-- NFKC applied character-wise. -/
def nfkcFragment (l : List Char) : List Char :=
  lflat (l.map nfkcChar)

/-- `normaliser_unicode` from `src/backend/tools/text_processor.py`:
apply the replacement table in order, then NFKC. -/
def normaliser_unicode (texte : String) : String :=
  if texte = "" then ""
  else
    let replaced :=
      remplacements.foldl (fun acc kv => applyRemplacement kv.1 kv.2 acc) texte.toList
    String.mk (nfkcFragment replaced)

/-- The character class kept by `re.sub(r"[^\w\s\.\-\+#]", " ", ·)`. -/
def keepChar (c : Char) : Bool :=
  isWordChar c || isSpaceChar c || c = '.' || c = '-' || c = '+' || c = '#'

/-- `re.sub(r"\s+", " ", ·)`: collapse every whitespace run to one space. -/
def collapseSpaces : List Char → List Char
  | [] => []
  | [c] => if isSpaceChar c then [' '] else [c]
  | c :: d :: rest =>
    if isSpaceChar c then
      if isSpaceChar d then collapseSpaces (d :: rest)
      else ' ' :: collapseSpaces (d :: rest)
    else c :: collapseSpaces (d :: rest)

/-- Python `str.strip()`. -/
def pyStrip (l : List Char) : List Char :=
  ((l.dropWhile isSpaceChar).reverse.dropWhile isSpaceChar).reverse

/-- `nettoyer_texte` from `src/backend/tools/text_processor.py`:
normalise Unicode, lower-case, drop special characters, collapse
whitespace, strip. -/
def nettoyer_texte (texte : String) : String :=
  if texte = "" then ""
  else
    let texteNormalise := normaliser_unicode texte
    let texteClean :=
      (pyLower texteNormalise).toList.map (fun c => if keepChar c then c else ' ')
    String.mk (pyStrip (collapseSpaces texteClean))

/-- `extraire_texte_offre`: combined title + description + declared-skill
labels of one posting, cleaned for analysis. -/
def extraire_texte_offre (intitule description : String)
    (competencesRequises : List String) : String :=
  nettoyer_texte
    (intitule ++ " " ++ description ++ " " ++ String.intercalate " " competencesRequises)

/-! ## `text_processor.py` — skill search patterns

`patternsSpeciaux` translates the `patterns_speciaux` table of
`creer_patterns_recherche` pattern for pattern; `RE.word w` is `\b w \b`
(also the meaning of the automatic pattern built from an `re.escape`d
label). -/

/-- The `patterns_speciaux` table of `creer_patterns_recherche`. -/
def patternsSpeciaux : String → List RE
  | "javascript" => [RE.word "js", RE.word "javascript"]
  | "typescript" => [RE.wordNla "ts" "test" "tests", RE.word "typescript"]
  | ".net" =>
    [.seq (.lit '.') (.seq (RE.str "net") .wordB), RE.word "dotnet",
     RE.word "net framework", RE.word "net core", RE.word "net 5",
     RE.word "net 6", RE.word "net 7", RE.word "net 8"]
  | "c#" =>
    [.seq .wordB (.seq (RE.str "c#") (.pla (.alt RE.sp .eos))),
     .seq (.plb isSpaceChar) (RE.str "c#"),
     RE.word "c sharp", RE.word "csharp"]
  | "asp.net" =>
    [RE.word "asp.net", RE.word "asp net", RE.word "aspnet", RE.word "blazor",
     .seq .wordB (.seq (RE.str "mvc") (.seq .wordB
       (.pla (.seq RE.dotStar (.alt (RE.str "asp") (RE.str ".net")))))),
     RE.word "web api"]
  | "c++" => [RE.word "c++", RE.word "cpp", RE.word "c plus plus"]
  | "sql" =>
    [RE.word "sql", RE.word "t-sql", RE.word "tsql", RE.word "pl/sql",
     RE.word "plsql", RE.word "sql server", RE.word "mssql"]
  | "html" => [RE.word "html", RE.word "html5", RE.word "xhtml"]
  | "css" => [RE.word "css", RE.word "css3"]
  | "linux" =>
    [RE.word "linux", RE.word "unix", RE.word "centos", RE.word "ubuntu",
     RE.word "debian", RE.word "red hat", RE.word "rhel"]
  | "windows" =>
    [RE.word "windows", RE.wordNla "win" "dev" "developer",
     RE.word "microsoft windows"]
  | "vue.js" => [RE.word "vue.js", RE.wordNla "vue" "view" "views", RE.word "vuejs"]
  | "spring boot" => [RE.word "spring boot", RE.word "springboot"]
  | "postgresql" => [RE.word "postgresql", RE.word "postgres", RE.word "psql"]
  | "mysql" => [RE.word "mysql", RE.word "my sql"]
  | "mongodb" => [RE.word "mongodb", RE.word "mongo db", RE.word "mongo"]
  | "agile" => [RE.word "agile", RE.word "agility", RE.word "methodologie agile"]
  | "scrum" => [RE.word "scrum", RE.word "scrum master"]
  | "devops" => [RE.word "devops", RE.word "dev ops"]
  | "microservices" =>
    [RE.word "microservices", RE.word "micro services", RE.word "micro-services"]
  | "docker" => [RE.word "docker", RE.word "container", RE.word "containerisation"]
  | "kubernetes" => [RE.word "kubernetes", RE.word "k8s"]
  | "git" =>
    [RE.wordNla "git" "hub" "lab", RE.word "version control",
     RE.word "controle de version"]
  | "github" => [RE.word "github", RE.word "git hub"]
  | "gitlab" => [RE.word "gitlab", RE.word "git lab"]
  | "windev" => [RE.word "windev", RE.word "win dev", RE.word "pc soft"]
  | "webdev" => [RE.word "webdev", RE.wordNla "web dev" "eloper" "elopment"]
  | "android" => [RE.word "android", RE.word "mobile android"]
  | "ios" => [RE.word "ios", RE.word "iphone", RE.word "ipad", RE.word "swift ios"]
  | "react native" => [RE.word "react native", RE.word "reactnative"]
  | "flutter" => [RE.word "flutter", RE.word "dart flutter"]
  | _ => []

/-- The labels using only their hand-authored patterns
(`competences_patterns_seulement`). -/
def competencesPatternsSeulement : List String := ["c#", ".net", "asp.net", "c++"]

/-- `creer_patterns_recherche`: the automatic word-boundary pattern from
the lower-cased escaped label (suppressed for the pattern-only labels)
followed by the special patterns. -/
def creer_patterns_recherche (competence : String) : List RE :=
  let competenceLower := pyLower competence
  let patterns : List RE :=
    if competencesPatternsSeulement.contains competenceLower then []
    else [RE.word competenceLower]
  patterns ++ patternsSpeciaux competenceLower

/-- `rechercher_competence_dans_texte`: true when any pattern of the label
matches somewhere in the lower-cased text (no other preprocessing). -/
def rechercher_competence_dans_texte (texte competence : String) : Bool :=
  if texte = "" || competence = "" then false
  else
    (creer_patterns_recherche competence).any
      (fun p => reSearch p (pyLower texte).toList)

/-! ## `competence_analyzer.py` -/

/-- `CompetenceAnalyzer.analyser_texte`: walk every category and label of
the referential, collecting (without duplicates, in referential order) the
labels whose patterns match the raw text.  Note: the text is only
lower-cased by `rechercher_competence_dans_texte`; this path performs no
Unicode normalisation. -/
def analyser_texte (referentiel : List (String × List String)) (texte : String) :
    List String :=
  if texte = "" then []
  else
    referentiel.foldl (fun acc cat =>
      cat.2.foldl (fun acc2 competence =>
        if rechercher_competence_dans_texte texte competence then
          if acc2.contains competence then acc2 else acc2 ++ [competence]
        else acc2) acc) []

/-! ## `france_travail_collector.py` — reconciliation during collection

`collect_and_save_jobs_optimized` diffs the fetched ids against the store:
ids active in the store but absent from the fetch are closed; each fetched
offer is then classified as duplicate (id already stored), filtered (no
detected skill) or new. -/

/-- A raw posting from the upstream API (the fields reconciliation uses). -/
structure RawJob where
  id : String
  intitule : String
  description : String
deriving DecidableEq

/-- `source_ids_api`: the set of fetched ids. -/
def sourceIdsApi (rawJobs : List RawJob) : Finset String :=
  (rawJobs.map (fun j => j.id)).toFinset

/-- `source_ids_a_cloturer`: ids active in the store but absent from the
fetch. -/
def sourceIdsACloturer (actifs : Finset String) (rawJobs : List RawJob) :
    Finset String :=
  actifs \ sourceIdsApi rawJobs

/-- Outcome of the classification loop of
`collect_and_save_jobs_optimized`: new offers kept for insertion,
duplicates (id already in the store), offers filtered out for having no
detected skill. -/
structure Classification where
  nouvelles : List RawJob
  doublons : List RawJob
  filtrees : List RawJob
deriving DecidableEq

/-- The classification loop: a fetched offer whose id is already stored is
a duplicate; otherwise its title+description text is analysed and the
offer is dropped when no skill is detected, kept as new otherwise. -/
def classifierOffres (referentiel : List (String × List String))
    (existants : Finset String) : List RawJob → Classification
  | [] => ⟨[], [], []⟩
  | j :: rest =>
    let c := classifierOffres referentiel existants rest
    if j.id ∈ existants then ⟨c.nouvelles, j :: c.doublons, c.filtrees⟩
    else if analyser_texte referentiel (j.intitule ++ " " ++ j.description) = [] then
      ⟨c.nouvelles, c.doublons, j :: c.filtrees⟩
    else ⟨j :: c.nouvelles, c.doublons, c.filtrees⟩

/-! ## `database/repositories/offres.py` — the v1 `offres` collection -/

/-- A stored v1 posting document (the fields the verified operations
touch); a record is active iff `date_cloture` is unset. -/
structure OffreRow where
  source_id : String
  intitule : String
  description : String
  date_cloture : Option Int
  traite : Option Bool
  competences_extraites : Option (List String)
deriving DecidableEq

/-- The ids present in the store. -/
def storeIds (store : List OffreRow) : List String :=
  store.map (fun r => r.source_id)

/-- Behaviour of `insert_many(…, ordered=False)` on the `offres`
collection under its unique index on `source_id` (created by
`scripts/clean_mongodb_indexes.py`): each document whose key is still free
is inserted, a document violating the index is skipped. -/
def insertManyUnique (store : List OffreRow) : List OffreRow → List OffreRow × Nat
  | [] => (store, 0)
  | r :: rest =>
    if r.source_id ∈ storeIds store then insertManyUnique store rest
    else
      let p := insertManyUnique (store ++ [r]) rest
      (p.1, p.2 + 1)

/-- `OffresRepository.insert_many_offres`: fetch the already-present ids,
keep only the offers whose id is absent, bulk-insert those, and return the
number of rows created. -/
def insert_many_offres (store : List OffreRow) (offres : List OffreRow) :
    List OffreRow × Nat :=
  if offres = [] then (store, 0)
  else
    let offresNouvelles :=
      offres.filter (fun o => o.source_id ∉ storeIds store)
    insertManyUnique store offresNouvelles

/-- Modelled from the spec: `OffresRepository.close_offers` is called by
the collector and by `tests/test_coherence_offres_cloturees.py` but its
definition is not in the source tree.  Per the spec, closure sets
`active=false, closedAt=now`; in the v1 schema a record is active iff
`date_cloture` is unset, so closing sets `date_cloture := now` on every
row whose id is listed. -/
def close_offers (now : Int) (ids : List String) (store : List OffreRow) :
    List OffreRow :=
  store.map (fun r =>
    if r.source_id ∈ ids then { r with date_cloture := some now } else r)

/-- Modelled from the spec: `OffresRepository.get_active_offers_by_source`
(absent from the source tree) returns the records without a closure date
(see the active-offer queries in `tests/test_coherence_offres_cloturees.py`). -/
def get_active_offers (store : List OffreRow) : List OffreRow :=
  store.filter (fun r => r.date_cloture = none)

/-- A new offer converted and enriched for insertion by the collector:
skills already analysed, marked processed, no closure date. -/
def rowOfRawJob (referentiel : List (String × List String)) (j : RawJob) : OffreRow :=
  { source_id := j.id, intitule := j.intitule, description := j.description,
    date_cloture := none, traite := some true,
    competences_extraites :=
      some (analyser_texte referentiel (j.intitule ++ " " ++ j.description)) }

/-- One run of `collect_and_save_jobs_optimized` against the store: close
the active ids absent from the fetch, then insert the new offers with
detected skills. -/
def collectAndSaveV1 (referentiel : List (String × List String)) (now : Int)
    (store : List OffreRow) (rawJobs : List RawJob) : List OffreRow :=
  let existants := (storeIds store).toFinset
  let actifs := ((get_active_offers store).map (fun r => r.source_id)).toFinset
  let aCloturer := sourceIdsACloturer actifs rawJobs
  let store1 :=
    if aCloturer = ∅ then store
    else close_offers now (aCloturer.sort (fun a b => a ≤ b)) store
  let nouvelles := (classifierOffres referentiel existants rawJobs).nouvelles
  (insert_many_offres store1 (nouvelles.map (rowOfRawJob referentiel))).1

/-! ## `backend_v2` — `CollectJobsService` and `JobRepositoryMongoDB` -/

/-- A v2 `offres` document: `is_active` plus an optional closure-timestamp
field (`deactivate_jobs_by_source_ids` only touches `is_active`, so any
such field keeps its value; v2 never writes one). -/
structure JobRowV2 where
  source_id : String
  is_active : Bool
  closedAt : Option Int
deriving DecidableEq

/-- `JobRepositoryMongoDB.get_all_active_source_id`: ids of the documents
whose `is_active` is true (or absent; the model always carries the flag). -/
def get_all_active_source_id (store : List JobRowV2) : List String :=
  (store.filter (fun r => r.is_active)).map (fun r => r.source_id)

/-- `JobRepositoryMongoDB.deactivate_jobs_by_source_ids`:
`update_many` setting `is_active := false` on the listed ids — and nothing
else. -/
def deactivate_jobs_by_source_ids (store : List JobRowV2) (ids : List String) :
    List JobRowV2 :=
  if ids = [] then store
  else store.map (fun r =>
    if r.source_id ∈ ids then { r with is_active := false } else r)

/-- `CollectJobsService._filter_existing_jobs`: keep the fetched ids that
are not among the (active) store ids handed in. -/
def filter_existing_jobs (jobs : List String) (existingJobs : List String) :
    List String :=
  jobs.filter (fun j => j ∉ existingJobs)

/-- `CollectJobsService._deactivate_missing_jobs`: deactivate the known
(active) ids absent from the fetch. -/
def deactivate_missing_jobs (store : List JobRowV2) (jobs : List String)
    (existingJobs : List String) : List JobRowV2 :=
  let toDeactivate := existingJobs.filter (fun s => s ∉ jobs)
  deactivate_jobs_by_source_ids store toDeactivate

/-- `JobRepositoryMongoDB.save_jobs`: insert every job with
`is_active = True` (no closure field is written). -/
def save_jobs (store : List JobRowV2) (jobs : List String) : List JobRowV2 :=
  store ++ jobs.map (fun j => { source_id := j, is_active := true, closedAt := none })

/-- `CollectJobsService.collect_jobs` at the id level: fetch, deactivate
the active ids missing from the fetch, filter the fetched ids against the
*active* ids only, save the rest as new documents. -/
def collect_jobs_v2 (store : List JobRowV2) (fetched : List String) : List JobRowV2 :=
  let existing := get_all_active_source_id store
  let store1 := deactivate_missing_jobs store fetched existing
  let newJobs := filter_existing_jobs fetched existing
  save_jobs store1 newJobs

/-- Replace every non-breaking space by an ASCII space: the transformation
relating a text to its ASCII-space equivalent in the Unicode-normalisation
property. -/
def nbspFold (s : String) : String :=
  String.mk (s.toList.map (fun c => if c = ' ' then ' ' else c))

/-! ## `pipeline_orchestrator.py` — staleness gating

`check_should_collect` / `check_should_analyze` /
`check_should_generate_stats` read the latest run record for the stage and
decide `should_execute`.  The record is `none` when no document exists,
`some none` when the document lacks its date field, `some (some t)`
otherwise; times are in seconds, the window is `hours_limit` hours.
The stage is skipped exactly when `delta <= timedelta(hours=hours_limit)`. -/

/-- `PipelineOrchestrator.check_should_collect` (`should_execute` field). -/
def check_should_collect (lastCollecte : Option (Option Int)) (now : Int)
    (hoursLimit : Int) : Bool :=
  match lastCollecte with
  | none => true
  | some none => true
  | some (some lastDate) =>
    if now - lastDate ≤ hoursLimit * 3600 then false else true

/-- `PipelineOrchestrator.check_should_analyze` (`should_execute` field). -/
def check_should_analyze (lastAnalyse : Option (Option Int)) (now : Int)
    (hoursLimit : Int) : Bool :=
  match lastAnalyse with
  | none => true
  | some none => true
  | some (some lastDate) =>
    if now - lastDate ≤ hoursLimit * 3600 then false else true

/-- `PipelineOrchestrator.check_should_generate_stats` (`should_execute`
field). -/
def check_should_generate_stats (lastStats : Option (Option Int)) (now : Int)
    (hoursLimit : Int) : Bool :=
  match lastStats with
  | none => true
  | some none => true
  | some (some lastDate) =>
    if now - lastDate ≤ hoursLimit * 3600 then false else true

/-! ## `clients/france_travail.py` — paginated collection

`collecter_offres_paginees` (and its v2 twin `collect_offres_paginated`)
probes the total, walks the pages in order, appends the payload of every
success (status 200/206), logs and *continues* past a non-success page,
and stops early once the target count is reached.  A page response is
modelled as `some payload` on success and `none` on a non-success status. -/

/-- Result of a paginated collection: collected records, 1-based numbers
of the pages whose response was not a success, number of pages attempted. -/
structure CollecteResult (α : Type) where
  offres : List α
  pagesEnErreur : List Nat
  pagesTentees : Nat
deriving DecidableEq

/-- `nb_pages = (total_a_collecter + page_size - 1) // page_size`. -/
def nbPages (totalACollecter pageSize : Nat) : Nat :=
  (totalACollecter + pageSize - 1) / pageSize

/-- The page loop: extend the accumulator on success (breaking once the
target is reached), record the 1-based page number and continue on a
non-success response. -/
def collecteLoop {α : Type} (responses : Nat → Option (List α))
    (totalACollecter : Nat) :
    List Nat → List α → List Nat → Nat → CollecteResult α
  | [], acc, errs, tried => ⟨acc, errs, tried⟩
  | page :: restPages, acc, errs, tried =>
    match responses page with
    | some offresPage =>
      let acc2 := acc ++ offresPage
      if totalACollecter ≤ acc2.length then ⟨acc2, errs, tried + 1⟩
      else collecteLoop responses totalACollecter restPages acc2 errs (tried + 1)
    | none =>
      collecteLoop responses totalACollecter restPages acc (errs ++ [page + 1])
        (tried + 1)

/-- `total_a_collecter = min(total_disponible, max_offres or
total_disponible)` (Python truthiness: `None` and `0` both fall back to
the available total). -/
def collecteTarget (totalDisponible : Nat) (maxOffres : Option Nat) : Nat :=
  match maxOffres with
  | none => totalDisponible
  | some 0 => totalDisponible
  | some m => min totalDisponible m

/-- `collecter_offres_paginees`: cap the target by `max_offres`, cap the
page size at 150, then run the page loop over `range(nb_pages)`. -/
def collecter_offres_paginees {α : Type} (totalDisponible : Nat)
    (maxOffres : Option Nat) (pageSize : Nat)
    (responses : Nat → Option (List α)) : CollecteResult α :=
  let totalACollecter := collecteTarget totalDisponible maxOffres
  let ps := min pageSize 150
  collecteLoop responses totalACollecter (List.range (nbPages totalACollecter ps))
    [] [] 0

/-! ## `competence_processor.py` — extraction stage

`analyze_jobs_competences` (with `analyze_all=True`) selects the records
to analyse, runs the analyzer over title+description, keeps one mapping
entry per record *with at least one detected skill*, inserts one detection
row per (record, label) pair of the mapping, and updates exactly the
mapped records with their skills and `traite=True`. -/

/-- The `$or` selection of unprocessed records (no forced re-analysis):
not yet processed, or without extracted skills. -/
def offreAAnalyser (r : OffreRow) : Bool :=
  r.traite = none || r.traite = some false ||
  r.competences_extraites = none || r.competences_extraites = some []

/-- Skills detected for one record by `CompetenceAnalyzer.analyser_offres`
(the analyzer receives the record's id, title and description; the text is
cleaned by `extraire_texte_offre`). -/
def competencesDetectees (referentiel : List (String × List String))
    (r : OffreRow) : List String :=
  analyser_texte referentiel (extraire_texte_offre r.intitule r.description [])

/-- `_construire_mapping_competences_offres`: one entry per analysed
record having at least one detected skill. -/
def competencesParOffre (referentiel : List (String × List String))
    (offres : List OffreRow) : List (String × List String) :=
  (offres.map (fun r => (r.source_id, competencesDetectees referentiel r))).filter
    (fun p => p.2 ≠ [])

/-- `_sauvegarder_competences_detectees`: one detection row per
(record id, label) pair of the mapping. -/
def detectionsDuMapping (mapping : List (String × List String)) :
    List (String × String) :=
  lflat (mapping.map (fun p => p.2.map (fun c => (p.1, c))))

/-- `update_one({source_id: id}, set competences, traite=True)`: update
the first stored row with the given id. -/
def updateOffre (id : String) (comps : List String) :
    List OffreRow → List OffreRow
  | [] => []
  | r :: rest =>
    if r.source_id = id then
      { r with competences_extraites := some comps, traite := some true } :: rest
    else r :: updateOffre id comps rest

/-- First value bound to a key in an association list (the dict lookup of
`competences_par_offre`). -/
def lookupComps (id : String) : List (String × List String) → Option (List String)
  | [] => none
  | p :: rest => if p.1 = id then some p.2 else lookupComps id rest

/-- `_mettre_a_jour_offres_avec_competences`: run the per-record updates of
the mapping in order. -/
def mettreAJourOffres (store : List OffreRow)
    (mapping : List (String × List String)) : List OffreRow :=
  mapping.foldl (fun st p => updateOffre p.1 p.2 st) store

/-- `analyze_jobs_competences` (`analyze_all=True`): final store and the
inserted detection rows. -/
def analyze_jobs_competences (referentiel : List (String × List String))
    (forceReanalyze : Bool) (store : List OffreRow) :
    List OffreRow × List (String × String) :=
  let selection := if forceReanalyze then store else store.filter offreAAnalyser
  let mapping := competencesParOffre referentiel selection
  (mettreAJourOffres store mapping, detectionsDuMapping mapping)

/-! ## `FranceTravailCollector._parse_date_api` — upstream date parsing

`datetime.fromisoformat` is modelled after the strict CPython (≤ 3.10)
grammar: `YYYY-MM-DD`, optionally followed by one separator character and
a time `HH[:MM[:SS[.fff|.ffffff]]]` with an optional `±HH:MM[:SS]` offset;
calendar and range validity are checked.  The caller strips fractional
seconds and rewrites `Z` to `+00:00` before parsing, as the Python code
does. -/

/-- A parsed `datetime` value (offset in seconds when aware). -/
structure PyDateTime where
  year : Nat
  month : Nat
  day : Nat
  hour : Nat
  minute : Nat
  second : Nat
  microsecond : Nat
  tzSeconds : Option Int
deriving DecidableEq

/-- Numeric value of a digit list. -/
def digitsToNat (l : List Char) : Nat :=
  l.foldl (fun n c => n * 10 + (c.toNat - 48)) 0

/-- Length of the month, Gregorian rules. -/
def daysInMonth (y m : Nat) : Nat :=
  if m = 2 then
    if (y % 4 = 0 && y % 100 ≠ 0) || y % 400 = 0 then 29 else 28
  else if m = 4 || m = 6 || m = 9 || m = 11 then 30 else 31

/-- Parse `YYYY-MM-DD` (exactly ten characters, calendar-checked). -/
def parseIsoDate (l : List Char) : Option (Nat × Nat × Nat) :=
  match l with
  | [y1, y2, y3, y4, '-', m1, m2, '-', d1, d2] =>
    if [y1, y2, y3, y4, m1, m2, d1, d2].all Char.isDigit then
      let y := digitsToNat [y1, y2, y3, y4]
      let m := digitsToNat [m1, m2]
      let d := digitsToNat [d1, d2]
      if 1 ≤ y && 1 ≤ m && m ≤ 12 && 1 ≤ d && d ≤ daysInMonth y m then
        some (y, m, d)
      else none
    else none
  | _ => none

/-- Parse `HH[:MM[:SS[.fff|.ffffff]]]` (range-checked). -/
def parseIsoTime (l : List Char) : Option (Nat × Nat × Nat × Nat) :=
  match l with
  | [h1, h2] =>
    if [h1, h2].all Char.isDigit then
      let h := digitsToNat [h1, h2]
      if h ≤ 23 then some (h, 0, 0, 0) else none
    else none
  | [h1, h2, ':', m1, m2] =>
    if [h1, h2, m1, m2].all Char.isDigit then
      let h := digitsToNat [h1, h2]
      let m := digitsToNat [m1, m2]
      if h ≤ 23 && m ≤ 59 then some (h, m, 0, 0) else none
    else none
  | [h1, h2, ':', m1, m2, ':', s1, s2] =>
    if [h1, h2, m1, m2, s1, s2].all Char.isDigit then
      let h := digitsToNat [h1, h2]
      let m := digitsToNat [m1, m2]
      let s := digitsToNat [s1, s2]
      if h ≤ 23 && m ≤ 59 && s ≤ 59 then some (h, m, s, 0) else none
    else none
  | [h1, h2, ':', m1, m2, ':', s1, s2, '.', f1, f2, f3] =>
    if [h1, h2, m1, m2, s1, s2, f1, f2, f3].all Char.isDigit then
      let h := digitsToNat [h1, h2]
      let m := digitsToNat [m1, m2]
      let s := digitsToNat [s1, s2]
      if h ≤ 23 && m ≤ 59 && s ≤ 59 then
        some (h, m, s, digitsToNat [f1, f2, f3] * 1000)
      else none
    else none
  | [h1, h2, ':', m1, m2, ':', s1, s2, '.', f1, f2, f3, f4, f5, f6] =>
    if [h1, h2, m1, m2, s1, s2, f1, f2, f3, f4, f5, f6].all Char.isDigit then
      let h := digitsToNat [h1, h2]
      let m := digitsToNat [m1, m2]
      let s := digitsToNat [s1, s2]
      if h ≤ 23 && m ≤ 59 && s ≤ 59 then
        some (h, m, s, digitsToNat [f1, f2, f3, f4, f5, f6])
      else none
    else none
  | _ => none

/-- Index of the first `+` or `-` in the time part (the offset marker),
taking the larger of the two `str.find` results as CPython does. -/
def tzMarker (l : List Char) : Option Nat :=
  match l.indexOf? '+', l.indexOf? '-' with
  | none, none => none
  | some i, none => some i
  | none, some j => some j
  | some i, some j => some (max i j)

/-- Parse the time part with its optional offset. -/
def parseIsoTimeTz (l : List Char) : Option (Nat × Nat × Nat × Nat × Option Int) :=
  match tzMarker l with
  | none => (parseIsoTime l).map (fun t => (t.1, t.2.1, t.2.2.1, t.2.2.2, none))
  | some i =>
    let timePart := l.take i
    let signChar := l.get? i
    let tzPart := l.drop (i + 1)
    match parseIsoTime timePart, parseIsoTime tzPart with
    | some t, some tz =>
      if tz.2.2.2 = 0 then
        let off : Int := (tz.1 * 3600 + tz.2.1 * 60 + tz.2.2.1 : Nat)
        let signedOff := if signChar = some '-' then -off else off
        some (t.1, t.2.1, t.2.2.1, t.2.2.2, some signedOff)
      else none
    | _, _ => none

/-- `datetime.fromisoformat` (strict CPython ≤ 3.10 grammar). -/
def fromisoformat (s : String) : Option PyDateTime :=
  let l := s.toList
  match parseIsoDate (l.take 10) with
  | none => none
  | some (y, m, d) =>
    match l.drop 10 with
    | [] => some ⟨y, m, d, 0, 0, 0, 0, none⟩
    | _sep :: timeRest =>
      match parseIsoTimeTz timeRest with
      | none => none
      | some (h, mi, sec, us, tz) => some ⟨y, m, d, h, mi, sec, us, tz⟩

/-- Python `str.split(sep)` for a one-character separator. -/
def splitOnChar (sep : Char) : List Char → List (List Char)
  | [] => [[]]
  | c :: rest =>
    let r := splitOnChar sep rest
    if c = sep then [] :: r
    else (c :: r.headD []) :: r.tail

/-- Python `str.replace("Z", "+00:00")`. -/
def pyReplaceZ (l : List Char) : List Char :=
  lflat (l.map (fun c => if c = 'Z' then "+00:00".toList else [c]))

/-- The parse attempted inside the `try` of `_parse_date_api`: a string
containing `T` is rebuilt as date `T` time-truncated-at-the-first-dot with
`Z` rewritten to `+00:00`; any other string is parsed as is. -/
def tentativeParseDate (s : String) : Option PyDateTime :=
  if s.toList.contains 'T' then
    let parts := splitOnChar 'T' s.toList
    let avantT := parts.headD []
    let apresT := (parts.drop 1).headD []
    let sansFraction := (splitOnChar '.' apresT).headD []
    fromisoformat (String.mk (pyReplaceZ (avantT ++ 'T' :: sansFraction)))
  else fromisoformat s

/-- `FranceTravailCollector._parse_date_api`: a missing or empty date
string gives `None`; otherwise the parse is attempted and any failure is
caught, returning `datetime.now()` instead. -/
def parse_date_api (now : PyDateTime) (dateStr : Option String) :
    Option PyDateTime :=
  match dateStr with
  | none => none
  | some s =>
    if s = "" then none
    else
      match tentativeParseDate s with
      | some d => some d
      | none => some now

/-! ## Engine lemmas -/

theorem mem_lflat {α : Type} {x : α} {ls : List (List α)} :
    x ∈ lflat ls ↔ ∃ l ∈ ls, x ∈ l := by
  induction ls with
  | nil => simp [lflat]
  | cons h t ih =>
    simp only [lflat, List.foldr_cons, List.mem_append, List.mem_cons]
    constructor
    · rintro (hx | hx)
      · exact ⟨h, Or.inl rfl, hx⟩
      · obtain ⟨l, hl, hxl⟩ := ih.mp hx
        exact ⟨l, Or.inr hl, hxl⟩
    · rintro ⟨l, (rfl | hl), hxl⟩
      · exact Or.inl hxl
      · exact Or.inr (ih.mpr ⟨l, hl, hxl⟩)

theorem endsAt_seq_mem {s : List Char} {a b : RE} {i x : Nat} :
    x ∈ endsAt s (.seq a b) i ↔ ∃ j ∈ endsAt s a i, x ∈ endsAt s b j := by
  show x ∈ lflat ((endsAt s a i).map (fun j => endsAt s b j)) ↔ _
  simp only [mem_lflat, List.mem_map]
  constructor
  · rintro ⟨l, ⟨j, hj, rfl⟩, hx⟩
    exact ⟨j, hj, hx⟩
  · rintro ⟨j, hj, hx⟩
    exact ⟨endsAt s b j, ⟨j, hj, rfl⟩, hx⟩

theorem endsAt_wordB_mem {s : List Char} {i x : Nat} :
    x ∈ endsAt s .wordB i ↔ boundaryAt s i = true ∧ x = i := by
  show x ∈ (if boundaryAt s i then [i] else []) ↔ _
  split <;> simp_all

theorem endsAt_lit_mem {s : List Char} {c : Char} {i x : Nat} :
    x ∈ endsAt s (.lit c) i ↔ s.get? i = some c ∧ x = i + 1 := by
  show x ∈ (match s.get? i with
    | some d => if d = c then [i + 1] else []
    | none => []) ↔ _
  cases hg : s.get? i with
  | none => simp
  | some d =>
    by_cases hd : d = c
    · subst hd; simp
    · simp only [if_neg hd, List.not_mem_nil, false_iff, not_and]
      intro hc
      exact absurd (Option.some.inj hc) hd

theorem endsAt_eps_mem {s : List Char} {i x : Nat} :
    x ∈ endsAt s .eps i ↔ x = i := by
  show x ∈ [i] ↔ _
  simp

theorem wordAt_of_get (s : List Char) (k : Nat) (c : Char)
    (hk : s.get? k = some c) : wordAt s k = isWordChar c := by
  unfold wordAt
  rw [hk]

/-- Inversion of a match of the `ts` pattern: the match sits on a word
boundary on both sides of the literal `ts`. -/
theorem reMatchAt_ts_boundary (s : List Char) (i : Nat)
    (h : reMatchAt (RE.wordNla "ts" "test" "tests") s i = true) :
    wordBefore s i = false ∧ s.get? i = some 't' ∧ s.get? (i + 1) = some 's' ∧
      wordAt s (i + 2) = false := by
  simp only [reMatchAt, Bool.not_eq_true', List.isEmpty_eq_false_iff_exists_mem] at h
  obtain ⟨x, hx⟩ := h
  have hshape : RE.wordNla "ts" "test" "tests" =
      .seq .wordB (.seq (.seq (.lit 't') (.seq (.lit 's') .eps))
        (.seq .wordB (.nla (.seq RE.spStar (.alt (RE.str "test") (RE.str "tests")))))) := rfl
  rw [hshape] at hx
  rw [endsAt_seq_mem] at hx
  obtain ⟨j1, hj1, hx⟩ := hx
  rw [endsAt_wordB_mem] at hj1
  obtain ⟨hb1, rfl⟩ := hj1
  rw [endsAt_seq_mem] at hx
  obtain ⟨j2, hj2, hx⟩ := hx
  rw [endsAt_seq_mem] at hj2
  obtain ⟨j3, hj3, hj2⟩ := hj2
  rw [endsAt_lit_mem] at hj3
  obtain ⟨hgt, rfl⟩ := hj3
  rw [endsAt_seq_mem] at hj2
  obtain ⟨j4, hj4, hj2⟩ := hj2
  rw [endsAt_lit_mem] at hj4
  obtain ⟨hgs, rfl⟩ := hj4
  rw [endsAt_eps_mem] at hj2
  subst hj2
  rw [endsAt_seq_mem] at hx
  obtain ⟨j5, hj5, _⟩ := hx
  rw [endsAt_wordB_mem] at hj5
  obtain ⟨hb2, rfl⟩ := hj5
  have hwi : wordAt s j1 = true := by rw [wordAt_of_get s j1 't' hgt]; decide
  have hwi1 : wordAt s (j1 + 1) = true := by
    rw [wordAt_of_get s (j1 + 1) 's' hgs]; decide
  have h1 : wordBefore s j1 = false := by
    simp only [boundaryAt, hwi, bne_iff_ne] at hb1
    simpa using hb1
  have h2 : wordAt s (j1 + 1 + 1) = false := by
    have hwb : wordBefore s (j1 + 1 + 1) = wordAt s (j1 + 1) := rfl
    simp only [boundaryAt, hwb, hwi1, bne_iff_ne] at hb2
    simpa using (Ne.symm hb2)
  exact ⟨h1, hgt, hgs, h2⟩

/-! ## C5 — word-boundary correctness of the `ts` pattern -/

/-- C5.  In `"we need ts experience, not tests"` the `typescript` label is
reported (the standalone token `ts` matches, at position 8 only, so not
inside the word `tests`); and in any text a match of the `ts` pattern
starts at a standalone `ts` token: no word character precedes it and no
word character follows it, so the pattern never matches `ts` as a
substring of a longer word. -/
theorem ts_pattern_word_boundary :
    rechercher_competence_dans_texte "we need ts experience, not tests"
        "typescript" = true ∧
    (List.range 33).filter
        (fun i => reMatchAt (RE.wordNla "ts" "test" "tests")
          "we need ts experience, not tests".toList i) = [8] ∧
    ∀ (s : List Char) (i : Nat),
      reMatchAt (RE.wordNla "ts" "test" "tests") s i = true →
        wordBefore s i = false ∧ s.get? i = some 't' ∧
          s.get? (i + 1) = some 's' ∧ wordAt s (i + 2) = false := by
  refine ⟨by decide, by decide, ?_⟩
  intro s i h
  exact reMatchAt_ts_boundary s i h

/-- C5 witness: the boundary inversion applied to the concrete match at
position 8 of the reference text. -/
theorem ts_pattern_word_boundary_witness :
    wordBefore "we need ts experience, not tests".toList 8 = false ∧
      "we need ts experience, not tests".toList.get? 8 = some 't' ∧
      "we need ts experience, not tests".toList.get? 9 = some 's' ∧
      wordAt "we need ts experience, not tests".toList 10 = false :=
  ts_pattern_word_boundary.2.2 "we need ts experience, not tests".toList 8
    (by decide)


/-! ## C6 — Unicode-normalisation lemmas -/

theorem lflat_cons {α : Type} (x : List α) (xs : List (List α)) :
    lflat (x :: xs) = x ++ lflat xs := rfl

theorem applyRemplacement_nbsp_map (l : List Char) :
    applyRemplacement '\u00A0' [' '] (l.map (fun c => if c = '\u00A0' then ' ' else c)) =
      applyRemplacement '\u00A0' [' '] l := by
  unfold applyRemplacement
  rw [List.map_map]
  refine congrArg lflat (List.map_congr_left ?_)
  intro c _
  by_cases hc : c = '\u00A0'
  · subst hc
    rfl
  · simp [hc]

theorem string_eq_empty_iff (s : String) : s = "" ↔ s.toList = [] :=
  ⟨fun h => congrArg String.toList h, fun h => congrArg (fun l => String.mk l) h⟩

theorem nbspFold_toList (s : String) :
    (nbspFold s).toList = s.toList.map (fun c => if c = '\u00A0' then ' ' else c) := rfl

theorem nbspFold_eq_empty_iff (s : String) : nbspFold s = "" ↔ s = "" := by
  rw [string_eq_empty_iff, nbspFold_toList, List.map_eq_nil_iff,
    ← string_eq_empty_iff]

theorem remplacements_cons :
    remplacements = ('\u00A0', [' ']) ::
      [('–', ['-']), ('—', ['-']), ('‘', ['\x27']), ('’', ['\x27']),
       ('“', ['\x22']), ('”', ['\x22']), ('…', ['.', '.', '.']),
       ('«', ['\x22']), ('»', ['\x22'])] := rfl

/-- The first replacement of `normaliser_unicode` is exactly the
non-breaking-space fold, so normalisation coincides on a text and on its
ASCII-space equivalent. -/
theorem normaliser_nbspFold (texte : String) :
    normaliser_unicode (nbspFold texte) = normaliser_unicode texte := by
  by_cases h : texte = ""
  · subst h
    rfl
  · have hf : nbspFold texte ≠ "" := fun hc => h ((nbspFold_eq_empty_iff texte).mp hc)
    unfold normaliser_unicode
    rw [if_neg hf, if_neg h]
    rw [remplacements_cons]
    simp only [List.foldl_cons, List.foldl_nil]
    rw [show ((nbspFold texte).toList) = texte.toList.map
      (fun c => if c = '\u00A0' then ' ' else c) from rfl]
    rw [applyRemplacement_nbsp_map]

theorem nettoyer_nbspFold (texte : String) :
    nettoyer_texte (nbspFold texte) = nettoyer_texte texte := by
  by_cases h : texte = ""
  · subst h
    rfl
  · have hf : nbspFold texte ≠ "" := fun hc => h ((nbspFold_eq_empty_iff texte).mp hc)
    unfold nettoyer_texte
    rw [if_neg hf, if_neg h, normaliser_nbspFold]

theorem nbspFold_append (a b : String) :
    nbspFold (a ++ b) = nbspFold a ++ nbspFold b := by
  show String.mk ((a ++ b).toList.map (fun c => if c = '\u00A0' then ' ' else c)) =
    String.mk (a.toList.map (fun c => if c = '\u00A0' then ' ' else c) ++
      b.toList.map (fun c => if c = '\u00A0' then ' ' else c))
  rw [show (a ++ b).toList = a.toList ++ b.toList from rfl, List.map_append]

theorem nbspFold_space : nbspFold " " = " " := by decide

theorem nbspFold_intercalate_go (acc : String) (l : List String) :
    nbspFold (String.intercalate.go acc " " l) =
      String.intercalate.go (nbspFold acc) " " (l.map nbspFold) := by
  induction l generalizing acc with
  | nil => rfl
  | cons a as ih =>
    show nbspFold (String.intercalate.go (acc ++ " " ++ a) " " as) =
      String.intercalate.go (nbspFold acc ++ " " ++ nbspFold a) " " (as.map nbspFold)
    rw [ih (acc ++ " " ++ a), nbspFold_append, nbspFold_append, nbspFold_space]

theorem nbspFold_intercalate (l : List String) :
    nbspFold (String.intercalate " " l) =
      String.intercalate " " (l.map nbspFold) := by
  cases l with
  | nil => rfl
  | cons a as =>
    show nbspFold (String.intercalate.go a " " as) =
      String.intercalate.go (nbspFold a) " " (as.map nbspFold)
    exact nbspFold_intercalate_go a as

/-! ## C6 — the Unicode-invariance claim -/

/-- C6 counterexample.  On the public matching path used by
`CompetenceAnalyzer.analyser_texte` (and hence by the real-time filtering
of the collector) the text is only lower-cased, never Unicode-normalised:
`"React\u00A0Native"` does not match the `react native` pattern while its
ASCII-space equivalent does, so the two texts do not produce identical
match results. -/
theorem unicode_nbsp_not_invariant_on_raw_path :
    rechercher_competence_dans_texte "React\u00A0Native" "react native" = false ∧
    rechercher_competence_dans_texte "React Native" "react native" = true ∧
    analyser_texte [("mobile", ["react native"])] "React\u00A0Native" ≠
      analyser_texte [("mobile", ["react native"])] "React Native" :=
  ⟨by decide, by decide, by decide⟩

/-- C6 amended.  The invariance holds on every path that first cleans the
text with `nettoyer_texte` (in particular `analyser_offres` via
`extraire_texte_offre`): replacing every non-breaking space by an ASCII
space changes neither the cleaned text nor any match result computed from
it.  It fails on the raw path of `analyser_texte`, which only
lower-cases (see the counterexample). -/
theorem unicode_nbsp_invariance_amended :
    (∀ texte, nettoyer_texte (nbspFold texte) = nettoyer_texte texte) ∧
    (∀ texte competence,
      rechercher_competence_dans_texte (nettoyer_texte (nbspFold texte))
          competence =
        rechercher_competence_dans_texte (nettoyer_texte texte) competence) ∧
    (∀ intitule description comps competence,
      rechercher_competence_dans_texte
          (extraire_texte_offre (nbspFold intitule) (nbspFold description)
            (comps.map nbspFold)) competence =
        rechercher_competence_dans_texte
          (extraire_texte_offre intitule description comps) competence) := by
  refine ⟨nettoyer_nbspFold, fun texte competence => by rw [nettoyer_nbspFold], ?_⟩
  intro intitule description comps competence
  unfold extraire_texte_offre
  rw [← nbspFold_intercalate]
  rw [show nbspFold intitule ++ " " ++ nbspFold description ++ " " ++
        nbspFold (String.intercalate " " comps) =
      nbspFold (intitule ++ " " ++ description ++ " " ++
        String.intercalate " " comps) by
    simp only [nbspFold_append, nbspFold_space]]
  rw [nettoyer_nbspFold]

/-! ## C7 — staleness gating -/

/-- C7.  Every stage check skips exactly when a previous-run record with a
date exists and its age is within the staleness window (boundary
included), and runs otherwise; with a 24h window, a run 10 hours old is
skipped and a run 25 hours old is re-run; a missing record always means
run now (as does a record without its date field). -/
theorem staleness_gating :
    (∀ (marker : Option (Option Int)) (now hoursLimit : Int),
      check_should_collect marker now hoursLimit = false ↔
        ∃ d, marker = some (some d) ∧ now - d ≤ hoursLimit * 3600) ∧
    (∀ (marker : Option (Option Int)) (now hoursLimit : Int),
      check_should_analyze marker now hoursLimit =
        check_should_collect marker now hoursLimit) ∧
    (∀ (marker : Option (Option Int)) (now hoursLimit : Int),
      check_should_generate_stats marker now hoursLimit =
        check_should_collect marker now hoursLimit) ∧
    (∀ now : Int, check_should_collect (some (some (now - 36000))) now 24 = false) ∧
    (∀ now : Int, check_should_collect (some (some (now - 90000))) now 24 = true) ∧
    (∀ now hoursLimit : Int,
      check_should_collect none now hoursLimit = true ∧
      check_should_analyze none now hoursLimit = true ∧
      check_should_generate_stats none now hoursLimit = true ∧
      check_should_collect (some none) now hoursLimit = true) := by
  refine ⟨?_, ?_, ?_, ?_, ?_, ?_⟩
  · intro marker now hoursLimit
    match marker with
    | none => simp [check_should_collect]
    | some none => simp [check_should_collect]
    | some (some d) =>
      simp only [check_should_collect]
      split_ifs with hd
      · simp only [iff_true_intro rfl, true_iff]
        exact ⟨d, rfl, hd⟩
      · constructor
        · intro h
          exact absurd h (by simp)
        · rintro ⟨d2, heq, hle⟩
          obtain rfl : d2 = d := by
            have := Option.some.inj (Option.some.inj heq)
            exact this.symm
          exact absurd hle hd
  · intro marker now hoursLimit
    cases marker with
    | none => rfl
    | some inner => cases inner <;> rfl
  · intro marker now hoursLimit
    cases marker with
    | none => rfl
    | some inner => cases inner <;> rfl
  · intro now
    show (if now - (now - 36000) ≤ 24 * 3600 then false else true) = false
    rw [if_pos (by omega)]
  · intro now
    show (if now - (now - 90000) ≤ 24 * 3600 then false else true) = true
    rw [if_neg (by omega)]
  · intro now hoursLimit
    exact ⟨rfl, rfl, rfl, rfl⟩

/-! ## C10 — date-parsing fallback -/

/-- C10.  `_parse_date_api` is total: a missing or empty date string gives
`None`; a non-empty string that fails to parse is silently replaced by the
current wall-clock time; a string that parses yields its parse result,
independent of the clock. -/
theorem parse_date_api_fallback :
    (∀ now, parse_date_api now none = none) ∧
    (∀ now, parse_date_api now (some "") = none) ∧
    (∀ now s, s ≠ "" → tentativeParseDate s = none →
      parse_date_api now (some s) = some now) ∧
    (∀ now s d, tentativeParseDate s = some d →
      parse_date_api now (some s) = some d) := by
  refine ⟨fun now => rfl, fun now => rfl, ?_, ?_⟩
  · intro now s hs hp
    simp [parse_date_api, if_neg hs, hp]
  · intro now s d hp
    have hs : s ≠ "" := by
      intro he
      subst he
      rw [show tentativeParseDate "" = none from rfl] at hp
      cases hp
    simp [parse_date_api, if_neg hs, hp]

/-- C10 witness: a malformed non-empty date is replaced by the clock, and
the France Travail format parses to its own value. -/
theorem parse_date_api_fallback_witness :
    parse_date_api ⟨2025, 1, 1, 0, 0, 0, 0, none⟩ (some "not-a-date") =
      some ⟨2025, 1, 1, 0, 0, 0, 0, none⟩ ∧
    parse_date_api ⟨2025, 1, 1, 0, 0, 0, 0, none⟩
        (some "2024-10-15T10:30:00.000Z") =
      some ⟨2024, 10, 15, 10, 30, 0, 0, none⟩ :=
  ⟨parse_date_api_fallback.2.2.1 ⟨2025, 1, 1, 0, 0, 0, 0, none⟩ "not-a-date"
      (by decide) (by decide),
   parse_date_api_fallback.2.2.2 ⟨2025, 1, 1, 0, 0, 0, 0, none⟩
      "2024-10-15T10:30:00.000Z" ⟨2024, 10, 15, 10, 30, 0, 0, none⟩ (by decide)⟩

/-! ## C9 — partial-failure tolerance of paginated collection -/

/-- Trace of the page loop: the result collects, in order, the payloads of
the successful pages among those attempted; every failed attempted page is
reported by its 1-based number; the loop never stops at a failure (an
early stop happens only at a success that reached the target). -/
theorem collecteLoop_spec {α : Type} (responses : Nat → Option (List α))
    (total : Nat) :
    ∀ (pages : List Nat) (acc : List α) (errs : List Nat) (tried : Nat),
      ∃ k, k ≤ pages.length ∧
        (collecteLoop responses total pages acc errs tried).pagesTentees =
          tried + k ∧
        (collecteLoop responses total pages acc errs tried).offres =
          acc ++ lflat ((pages.take k).map (fun p => (responses p).getD [])) ∧
        (collecteLoop responses total pages acc errs tried).pagesEnErreur =
          errs ++ ((pages.take k).filter (fun p => (responses p).isNone)).map
            (fun p => p + 1) ∧
        (pages ≠ [] → 0 < k) ∧
        (k < pages.length →
          ∃ v, responses (pages.getD (k - 1) 0) = some v ∧
            total ≤ (collecteLoop responses total pages acc errs tried).offres.length) := by
  intro pages
  induction pages with
  | nil =>
    intro acc errs tried
    refine ⟨0, by simp, by simp [collecteLoop], by simp [collecteLoop, lflat],
      by simp [collecteLoop], by simp, by simp⟩
  | cons page rest ih =>
    intro acc errs tried
    cases hresp : responses page with
    | some l =>
      by_cases hstop : total ≤ acc.length + l.length
      · refine ⟨1, by simp, ?_, ?_, ?_, fun _ => Nat.one_pos, ?_⟩
        · simp [collecteLoop, hresp, List.length_append, hstop]
        · simp [collecteLoop, hresp, List.length_append, hstop, lflat]
        · simp [collecteLoop, hresp, List.length_append, hstop]
        · intro hk
          refine ⟨l, by simpa using hresp, ?_⟩
          simp [collecteLoop, hresp, List.length_append, hstop]
      · obtain ⟨k2, hk2len, htent, hoff, herr, hne, hstopc⟩ := ih (acc ++ l) errs (tried + 1)
        have hloop : collecteLoop responses total (page :: rest) acc errs tried =
            collecteLoop responses total rest (acc ++ l) errs (tried + 1) := by
          simp [collecteLoop, hresp, List.length_append, hstop]
        refine ⟨k2 + 1, by simpa using Nat.succ_le_succ hk2len, ?_, ?_, ?_,
          fun _ => Nat.succ_pos _, ?_⟩
        · rw [hloop, htent]; omega
        · rw [hloop, hoff]
          simp [lflat, hresp, List.append_assoc]
        · rw [hloop, herr]
          simp [hresp]
        · intro hk
          have hk2 : k2 < rest.length := by simpa using hk
          have hk2pos : 0 < k2 := hne (by intro hrest; rw [hrest] at hk2; simp at hk2)
          obtain ⟨v, hv, htot⟩ := hstopc hk2
          refine ⟨v, ?_, by rw [hloop]; exact htot⟩
          have : (page :: rest).getD (k2 + 1 - 1) 0 = rest.getD (k2 - 1) 0 := by
            have h1 : k2 + 1 - 1 = k2 := rfl
            rw [h1]
            cases k2 with
            | zero => exact absurd rfl (Nat.pos_iff_ne_zero.mp hk2pos)
            | succ m => simp
          rw [this]
          exact hv
    | none =>
      obtain ⟨k2, hk2len, htent, hoff, herr, hne, hstopc⟩ := ih acc (errs ++ [page + 1]) (tried + 1)
      have hloop : collecteLoop responses total (page :: rest) acc errs tried =
          collecteLoop responses total rest acc (errs ++ [page + 1]) (tried + 1) := by
        simp [collecteLoop, hresp]
      refine ⟨k2 + 1, by simpa using Nat.succ_le_succ hk2len, ?_, ?_, ?_,
        fun _ => Nat.succ_pos _, ?_⟩
      · rw [hloop, htent]; omega
      · rw [hloop, hoff]
        simp [lflat, hresp]
      · rw [hloop, herr]
        simp [hresp, List.append_assoc]
      · intro hk
        have hk2 : k2 < rest.length := by simpa using hk
        have hk2pos : 0 < k2 := hne (by intro hrest; rw [hrest] at hk2; simp at hk2)
        obtain ⟨v, hv, htot⟩ := hstopc hk2
        refine ⟨v, ?_, by rw [hloop]; exact htot⟩
        have : (page :: rest).getD (k2 + 1 - 1) 0 = rest.getD (k2 - 1) 0 := by
          have h1 : k2 + 1 - 1 = k2 := rfl
          rw [h1]
          cases k2 with
          | zero => exact absurd rfl (Nat.pos_iff_ne_zero.mp hk2pos)
          | succ m => simp
        rw [this]
        exact hv


/-- C9.  For every page-response assignment, the collector returns exactly
the accumulated records of the successful pages among those attempted,
reports each failed page by its 1-based index, and stops early only on a
success that reached the target; concretely, with 10 pages of two records
and page 3 failing, it returns the 18 records of the other nine pages and
reports page 3. -/
theorem collecte_partial_failure_tolerance :
    (∀ (α : Type) (responses : Nat → Option (List α)) (totalDisponible : Nat)
        (maxOffres : Option Nat) (pageSize : Nat),
      (collecter_offres_paginees totalDisponible maxOffres pageSize
            responses).offres =
        lflat ((List.range (collecter_offres_paginees totalDisponible maxOffres
            pageSize responses).pagesTentees).map
          (fun p => (responses p).getD [])) ∧
      (collecter_offres_paginees totalDisponible maxOffres pageSize
            responses).pagesEnErreur =
        ((List.range (collecter_offres_paginees totalDisponible maxOffres
            pageSize responses).pagesTentees).filter
          (fun p => (responses p).isNone)).map (fun p => p + 1) ∧
      ((collecter_offres_paginees totalDisponible maxOffres pageSize
            responses).pagesTentees <
          nbPages (collecteTarget totalDisponible maxOffres) (min pageSize 150) →
        ∃ v, responses ((collecter_offres_paginees totalDisponible maxOffres
            pageSize responses).pagesTentees - 1) = some v ∧
          collecteTarget totalDisponible maxOffres ≤
            (collecter_offres_paginees totalDisponible maxOffres pageSize
              responses).offres.length)) ∧
    collecter_offres_paginees 20 none 2
        (fun p => if p = 2 then none else some [p, p]) =
      ⟨[0, 0, 1, 1, 3, 3, 4, 4, 5, 5, 6, 6, 7, 7, 8, 8, 9, 9], [3], 10⟩ := by
  constructor
  · intro α responses totalDisponible maxOffres pageSize
    obtain ⟨k, hk, htent, hoff, herr, _, hstopc⟩ :=
      collecteLoop_spec responses (collecteTarget totalDisponible maxOffres)
        (List.range (nbPages (collecteTarget totalDisponible maxOffres)
          (min pageSize 150))) [] [] 0
    rw [List.length_range] at hk
    have hres : collecter_offres_paginees totalDisponible maxOffres pageSize
        responses =
        collecteLoop responses (collecteTarget totalDisponible maxOffres)
          (List.range (nbPages (collecteTarget totalDisponible maxOffres)
            (min pageSize 150))) [] [] 0 := rfl
    rw [hres]
    rw [htent, Nat.zero_add] at *
    refine ⟨?_, ?_, ?_⟩
    · rw [hoff, List.take_range, Nat.min_eq_left hk, List.nil_append]
    · rw [herr, List.take_range, Nat.min_eq_left hk, List.nil_append]
    · intro hlt
      obtain ⟨v, hv, htot⟩ := hstopc (by rwa [List.length_range])
      refine ⟨v, ?_, htot⟩
      have hgd : (List.range (nbPages (collecteTarget totalDisponible maxOffres)
          (min pageSize 150))).getD (k - 1) 0 = k - 1 := by
        rw [List.getD_eq_getElem?_getD, List.getElem?_range (by omega)]
        rfl
      rwa [hgd] at hv
  · decide


/-- C9 witness: an early stop only happens on a success that reaches the
target (page 0 returns four records against a target of three). -/
theorem collecte_partial_failure_tolerance_witness :
    ∃ v, (fun _ : Nat => some [100, 101, 102, 103])
        ((collecter_offres_paginees 10 (some 3) 2
          (fun _ : Nat => some [100, 101, 102, 103])).pagesTentees - 1) = some v ∧
      collecteTarget 10 (some 3) ≤
        (collecter_offres_paginees 10 (some 3) 2
          (fun _ : Nat => some [100, 101, 102, 103])).offres.length :=
  (collecte_partial_failure_tolerance.1 Nat
    (fun _ => some [100, 101, 102, 103]) 10 (some 3) 2).2.2 (by decide)

/-! ## C1 — reconciliation completeness -/

theorem classifierOffres_perm (referentiel : List (String × List String))
    (existants : Finset String) (rawJobs : List RawJob) :
    ((classifierOffres referentiel existants rawJobs).nouvelles ++
      (classifierOffres referentiel existants rawJobs).doublons ++
      (classifierOffres referentiel existants rawJobs).filtrees).Perm rawJobs := by
  induction rawJobs with
  | nil => simp [classifierOffres]
  | cons j rest ih =>
    simp only [classifierOffres]
    split_ifs with h1 h2
    · refine List.Perm.trans ?_ ((ih).cons j)
      simp only [List.append_assoc]
      exact List.perm_middle.trans (by simp [List.append_assoc])
    · refine List.Perm.trans ?_ ((ih).cons j)
      have hmid : List.Perm
          (((classifierOffres referentiel existants rest).nouvelles ++
            (classifierOffres referentiel existants rest).doublons) ++
            j :: (classifierOffres referentiel existants rest).filtrees)
          (j :: (((classifierOffres referentiel existants rest).nouvelles ++
            (classifierOffres referentiel existants rest).doublons) ++
            (classifierOffres referentiel existants rest).filtrees)) :=
        List.perm_middle
      simpa [List.append_assoc] using hmid
    · simpa using (ih).cons j

theorem classifierOffres_nouvelles_spec (referentiel : List (String × List String))
    (existants : Finset String) (rawJobs : List RawJob) :
    ∀ j ∈ (classifierOffres referentiel existants rawJobs).nouvelles,
      j.id ∉ existants ∧
        analyser_texte referentiel (j.intitule ++ " " ++ j.description) ≠ [] := by
  induction rawJobs with
  | nil => simp [classifierOffres]
  | cons j rest ih =>
    simp only [classifierOffres]
    split_ifs with h1 h2
    · exact ih
    · exact ih
    · intro j2 hj2
      rcases List.mem_cons.mp hj2 with rfl | hmem
      · exact ⟨h1, h2⟩
      · exact ih j2 hmem

theorem classifierOffres_doublons_spec (referentiel : List (String × List String))
    (existants : Finset String) (rawJobs : List RawJob) :
    ∀ j ∈ (classifierOffres referentiel existants rawJobs).doublons,
      j.id ∈ existants := by
  induction rawJobs with
  | nil => simp [classifierOffres]
  | cons j rest ih =>
    simp only [classifierOffres]
    split_ifs with h1 h2
    · intro j2 hj2
      rcases List.mem_cons.mp hj2 with rfl | hmem
      · exact h1
      · exact ih j2 hmem
    · exact ih
    · exact ih


/-- C1 amended.  The classification of `collect_and_save_jobs_optimized`
partitions the fetched offers into new / duplicate / filtered (so
`toCreate ∪ toSkip = F` only holds once the offers filtered out for having
no detected skill are counted on the skip side); `toCreate` holds only ids
absent from the whole store, `toSkip` only already-stored ids,
`toClose = A − F` exactly, and `toCreate` is disjoint from `toClose`. -/
theorem reconciliation_completeness_amended
    (referentiel : List (String × List String)) (existants actifs : Finset String)
    (rawJobs : List RawJob) :
    ((classifierOffres referentiel existants rawJobs).nouvelles ++
      (classifierOffres referentiel existants rawJobs).doublons ++
      (classifierOffres referentiel existants rawJobs).filtrees).Perm rawJobs ∧
    (∀ j ∈ (classifierOffres referentiel existants rawJobs).nouvelles,
      j.id ∉ existants) ∧
    (∀ j ∈ (classifierOffres referentiel existants rawJobs).doublons,
      j.id ∈ existants) ∧
    (∀ x, x ∈ sourceIdsACloturer actifs rawJobs ↔
      x ∈ actifs ∧ x ∉ sourceIdsApi rawJobs) ∧
    (∀ j ∈ (classifierOffres referentiel existants rawJobs).nouvelles,
      j.id ∉ sourceIdsACloturer actifs rawJobs) := by
  refine ⟨classifierOffres_perm referentiel existants rawJobs,
    fun j hj => (classifierOffres_nouvelles_spec referentiel existants rawJobs j hj).1,
    classifierOffres_doublons_spec referentiel existants rawJobs,
    fun x => Finset.mem_sdiff, ?_⟩
  intro j hj hmem
  have hjraw : j ∈ rawJobs := by
    refine (classifierOffres_perm referentiel existants rawJobs).mem_iff.mp ?_
    simp [hj]
  have hapi : j.id ∈ sourceIdsApi rawJobs := by
    simp only [sourceIdsApi, List.mem_toFinset, List.mem_map]
    exact ⟨j, hjraw, rfl⟩
  exact (Finset.mem_sdiff.mp hmem).2 hapi

/-- C1 counterexample.  A fetched offer whose id is unknown but whose text
contains no referenced skill is neither created nor skipped as a
duplicate, so `toCreate ∪ toSkip ≠ F` as the claim stated it. -/
theorem reconciliation_create_skip_not_cover :
    ¬((((classifierOffres [("langages", ["java"])] ∅
          [⟨"a", "plombier", ""⟩]).nouvelles.map (fun j => j.id)).toFinset ∪
        (((classifierOffres [("langages", ["java"])] ∅
          [⟨"a", "plombier", ""⟩]).doublons.map (fun j => j.id)).toFinset)) =
      sourceIdsApi [⟨"a", "plombier", ""⟩]) := by
  decide


/-- C1 witness: the amended classification applied to a concrete fetch
with one genuinely new offer and one duplicate. -/
theorem reconciliation_completeness_amended_witness :
    (⟨"a", "dev java", ""⟩ : RawJob).id ∉ ({"b"} : Finset String) ∧
    (⟨"a", "dev java", ""⟩ : RawJob).id ∉
      sourceIdsACloturer {"b", "d"} [⟨"a", "dev java", ""⟩, ⟨"b", "x", ""⟩] :=
  ⟨(reconciliation_completeness_amended [("langages", ["java"])] {"b"} {"b", "d"}
      [⟨"a", "dev java", ""⟩, ⟨"b", "x", ""⟩]).2.1 ⟨"a", "dev java", ""⟩ (by decide),
   (reconciliation_completeness_amended [("langages", ["java"])] {"b"} {"b", "d"}
      [⟨"a", "dev java", ""⟩, ⟨"b", "x", ""⟩]).2.2.2.2 ⟨"a", "dev java", ""⟩
      (by decide)⟩

/-! ## C2 — idempotent upsert -/

theorem storeIds_append (a b : List OffreRow) :
    storeIds (a ++ b) = storeIds a ++ storeIds b := by
  simp [storeIds]

theorem insertManyUnique_spec (l : List OffreRow) :
    ∀ store : List OffreRow,
      ∃ extra, (insertManyUnique store l).1 = store ++ extra ∧
        (∀ r ∈ extra, r ∈ l) ∧
        (∀ r ∈ extra, r.source_id ∉ storeIds store) ∧
        (storeIds extra).Nodup ∧
        (∀ r ∈ l, r.source_id ∈ storeIds (insertManyUnique store l).1) := by
  induction l with
  | nil =>
    intro store
    exact ⟨[], by simp [insertManyUnique], by simp, by simp, by simp [storeIds],
      by simp⟩
  | cons r rest ih =>
    intro store
    by_cases hc : r.source_id ∈ storeIds store
    · obtain ⟨extra, heq, hsub, hnotin, hnd, hall⟩ := ih store
      have hloop : insertManyUnique store (r :: rest) = insertManyUnique store rest := by
        simp [insertManyUnique, hc]
      refine ⟨extra, by rw [hloop, heq], fun x hx => List.mem_cons_of_mem r (hsub x hx),
        hnotin, hnd, ?_⟩
      intro x hx
      rcases List.mem_cons.mp hx with rfl | hmem
      · rw [hloop, heq, storeIds_append, List.mem_append]
        exact Or.inl hc
      · rw [hloop]
        exact hall x hmem
    · obtain ⟨extra2, heq, hsub, hnotin, hnd, hall⟩ := ih (store ++ [r])
      have hloop : (insertManyUnique store (r :: rest)).1 =
          (insertManyUnique (store ++ [r]) rest).1 := by
        simp [insertManyUnique, hc]
      have hids : storeIds (store ++ [r]) = storeIds store ++ [r.source_id] := by
        simp [storeIds]
      refine ⟨r :: extra2, ?_, ?_, ?_, ?_, ?_⟩
      · rw [hloop, heq, List.append_assoc]
        rfl
      · intro x hx
        rcases List.mem_cons.mp hx with rfl | hmem
        · exact List.mem_cons_self x rest
        · exact List.mem_cons_of_mem r (hsub x hmem)
      · intro x hx
        rcases List.mem_cons.mp hx with rfl | hmem
        · exact hc
        · intro hmem2
          refine hnotin x hmem ?_
          rw [hids, List.mem_append]
          exact Or.inl hmem2
      · refine List.Nodup.cons ?_ hnd
        intro hmem
        simp only [storeIds, List.mem_map] at hmem
        obtain ⟨x, hx, hxid⟩ := hmem
        refine hnotin x hx ?_
        rw [hids, List.mem_append, hxid]
        exact Or.inr (List.mem_singleton_self _)
      · intro x hx
        rcases List.mem_cons.mp hx with rfl | hmem
        · rw [hloop, heq, storeIds_append, List.mem_append]
          refine Or.inl ?_
          rw [hids, List.mem_append]
          exact Or.inr (List.mem_singleton_self _)
        · rw [hloop]
          exact hall x hmem


theorem insert_many_offres_spec (store offres : List OffreRow) :
    ∃ extra, (insert_many_offres store offres).1 = store ++ extra ∧
      (∀ r ∈ extra, r.source_id ∉ storeIds store) ∧
      (storeIds extra).Nodup ∧
      (∀ o ∈ offres, o.source_id ∈ storeIds (insert_many_offres store offres).1) := by
  by_cases h : offres = []
  · subst h
    exact ⟨[], by simp [insert_many_offres], by simp, by simp [storeIds], by simp⟩
  · have hdef : insert_many_offres store offres =
        insertManyUnique store
          (offres.filter (fun o => o.source_id ∉ storeIds store)) := by
      simp [insert_many_offres, h]
    obtain ⟨extra, heq, _, hnotin, hnd, hall⟩ :=
      insertManyUnique_spec (offres.filter (fun o => o.source_id ∉ storeIds store))
        store
    refine ⟨extra, by rw [hdef]; exact heq, hnotin, hnd, ?_⟩
    intro o ho
    by_cases hid : o.source_id ∈ storeIds store
    · rw [hdef, heq, storeIds_append, List.mem_append]
      exact Or.inl hid
    · rw [hdef]
      refine hall o ?_
      simp [List.mem_filter, ho, hid]

/-- C2.  `insert_many_offres` creates no row for an id already present
(the count of that id is unchanged), running it a second time with the
same batch creates zero rows and leaves the store unchanged, and it
preserves uniqueness of `source_id` across the store. -/
theorem idempotent_upsert :
    (∀ (store offres : List OffreRow) (x : String), x ∈ storeIds store →
      (storeIds (insert_many_offres store offres).1).count x =
        (storeIds store).count x) ∧
    (∀ store offres : List OffreRow,
      insert_many_offres (insert_many_offres store offres).1 offres =
        ((insert_many_offres store offres).1, 0)) ∧
    (∀ store offres : List OffreRow, (storeIds store).Nodup →
      (storeIds (insert_many_offres store offres).1).Nodup) := by
  refine ⟨?_, ?_, ?_⟩
  · intro store offres x hx
    obtain ⟨extra, heq, hnotin, _, _⟩ := insert_many_offres_spec store offres
    rw [heq, storeIds_append, List.count_append]
    have hz : (storeIds extra).count x = 0 := by
      rw [List.count_eq_zero]
      intro hmem
      simp only [storeIds, List.mem_map] at hmem
      obtain ⟨r, hr, hrid⟩ := hmem
      exact hnotin r hr (hrid ▸ hx)
    rw [hz]
    omega
  · intro store offres
    obtain ⟨extra, heq, hnotin, hnd, hall⟩ := insert_many_offres_spec store offres
    by_cases h : offres = []
    · subst h
      rfl
    · have hfil : offres.filter
          (fun o => o.source_id ∉ storeIds (insert_many_offres store offres).1) = [] := by
        rw [List.filter_eq_nil_iff]
        intro o ho
        simp only [decide_not, Bool.not_eq_true', decide_eq_false_iff_not, not_not]
        exact hall o ho
      show insert_many_offres (insert_many_offres store offres).1 offres = _
      rw [show insert_many_offres (insert_many_offres store offres).1 offres =
          insertManyUnique (insert_many_offres store offres).1
            (offres.filter (fun o =>
              o.source_id ∉ storeIds (insert_many_offres store offres).1)) by
        simp [insert_many_offres, h]]
      rw [hfil]
      rfl
  · intro store offres hnds
    obtain ⟨extra, heq, hnotin, hnd, _⟩ := insert_many_offres_spec store offres
    rw [heq, storeIds_append]
    refine List.Nodup.append hnds hnd ?_
    intro x hx1 hx2
    simp only [storeIds, List.mem_map] at hx2
    obtain ⟨r, hr, hrid⟩ := hx2
    exact hnotin r hr (hrid ▸ hx1)


/-- C2 witness: inserting a batch containing one duplicate of the store
and one new offer. -/
theorem idempotent_upsert_witness :
    (storeIds (insert_many_offres [⟨"a", "t", "d", none, none, none⟩]
        [⟨"a", "t", "d", none, none, none⟩,
         ⟨"b", "u", "e", none, none, none⟩]).1).count "a" =
      (storeIds [⟨"a", "t", "d", none, none, none⟩]).count "a" ∧
    (storeIds (insert_many_offres [⟨"a", "t", "d", none, none, none⟩]
        [⟨"a", "t", "d", none, none, none⟩,
         ⟨"b", "u", "e", none, none, none⟩]).1).Nodup :=
  ⟨idempotent_upsert.1 [⟨"a", "t", "d", none, none, none⟩]
      [⟨"a", "t", "d", none, none, none⟩, ⟨"b", "u", "e", none, none, none⟩]
      "a" (by decide),
   idempotent_upsert.2.2 [⟨"a", "t", "d", none, none, none⟩]
      [⟨"a", "t", "d", none, none, none⟩, ⟨"b", "u", "e", none, none, none⟩]
      (by decide)⟩

/-! ## C3 — no automatic resurrection -/

theorem nodup_storeIds_inj {store : List OffreRow}
    (h : (storeIds store).Nodup) {a b : OffreRow} (ha : a ∈ store)
    (hb : b ∈ store) (hid : a.source_id = b.source_id) : a = b :=
  List.inj_on_of_nodup_map h ha hb hid

theorem storeIds_close_offers (now : Int) (ids : List String)
    (store : List OffreRow) :
    storeIds (close_offers now ids store) = storeIds store := by
  simp only [storeIds, close_offers, List.map_map]
  refine List.map_congr_left ?_
  intro r _
  by_cases h : r.source_id ∈ ids <;> simp [h]

/-- C3 amended.  In the v1 collector, no fetched id present anywhere in
the store (active or inactive) is re-created, and a closed record survives
a collection run untouched: it stays in the store with its closure date,
and no other row ever carries its id.  (The v2 service violates this, see
the counterexample.) -/
theorem no_resurrection_amended :
    (∀ (referentiel : List (String × List String)) (existants : Finset String)
        (rawJobs : List RawJob),
      ∀ j ∈ (classifierOffres referentiel existants rawJobs).nouvelles,
        j.id ∉ existants) ∧
    (∀ (referentiel : List (String × List String)) (now : Int)
        (store : List OffreRow) (rawJobs : List RawJob),
      (storeIds store).Nodup →
      ∀ r ∈ store, r.date_cloture ≠ none →
        r ∈ collectAndSaveV1 referentiel now store rawJobs ∧
        ∀ r2 ∈ collectAndSaveV1 referentiel now store rawJobs,
          r2.source_id = r.source_id → r2 = r) := by
  constructor
  · intro referentiel existants rawJobs j hj
    exact (classifierOffres_nouvelles_spec referentiel existants rawJobs j hj).1
  · intro referentiel now store rawJobs hnd r hr hclosed
    have hradio : r.source_id ∈ storeIds store := List.mem_map_of_mem _ hr
    have hnotactifs : r.source_id ∉
        ((get_active_offers store).map (fun r => r.source_id)).toFinset := by
      intro hmem
      rw [List.mem_toFinset] at hmem
      obtain ⟨r2, hr2, hid⟩ := List.mem_map.mp hmem
      have hr2store : r2 ∈ store := List.mem_of_mem_filter hr2
      have hr2none : r2.date_cloture = none := by
        have := List.of_mem_filter hr2
        simpa [get_active_offers] using this
      have : r2 = r := nodup_storeIds_inj hnd hr2store hr hid
      rw [this] at hr2none
      exact hclosed hr2none
    set actifs := ((get_active_offers store).map (fun r => r.source_id)).toFinset
      with hactifs
    set aClot := sourceIdsACloturer actifs rawJobs with haclot
    have hnotclot : r.source_id ∉ aClot.sort (fun a b => a ≤ b) := by
      intro hmem
      rw [Finset.mem_sort] at hmem
      exact hnotactifs (Finset.mem_sdiff.mp hmem).1
    set store1 := if aClot = ∅ then store
      else close_offers now (aClot.sort (fun a b => a ≤ b)) store with hstore1
    have hrin1 : r ∈ store1 := by
      rw [hstore1]
      split
      · exact hr
      · rw [show r = (if r.source_id ∈ aClot.sort (fun a b => a ≤ b) then
            { r with date_cloture := some now } else r) by rw [if_neg hnotclot]]
        exact List.mem_map_of_mem _ hr
    have hids1 : storeIds store1 = storeIds store := by
      rw [hstore1]
      split
      · rfl
      · exact storeIds_close_offers now _ store
    have huniq1 : ∀ r2 ∈ store1, r2.source_id = r.source_id → r2 = r := by
      intro r2 hr2 hid
      rw [hstore1] at hr2
      revert hr2
      split
      · intro hr2
        exact nodup_storeIds_inj hnd hr2 hr hid
      · intro hr2
        obtain ⟨r3, hr3, hr3eq⟩ := List.mem_map.mp hr2
        have hid3 : r3.source_id = r.source_id := by
          rw [← hid, ← hr3eq]
          split <;> rfl
        have : r3 = r := nodup_storeIds_inj hnd hr3 hr hid3
        subst this
        rw [← hr3eq, if_neg hnotclot]
    have hresdef : collectAndSaveV1 referentiel now store rawJobs =
        (insert_many_offres store1
          ((classifierOffres referentiel ((storeIds store).toFinset)
            rawJobs).nouvelles.map (rowOfRawJob referentiel))).1 := by
      rw [collectAndSaveV1]
    obtain ⟨extra, heq, hnotin, _, _⟩ := insert_many_offres_spec store1
      ((classifierOffres referentiel ((storeIds store).toFinset)
        rawJobs).nouvelles.map (rowOfRawJob referentiel))
    constructor
    · rw [hresdef, heq, List.mem_append]
      exact Or.inl hrin1
    · intro r2 hr2 hid
      rw [hresdef, heq, List.mem_append] at hr2
      rcases hr2 with hr2 | hr2
      · exact huniq1 r2 hr2 hid
      · exfalso
        refine hnotin r2 hr2 ?_
        rw [hids1, hid]
        exact hradio

/-- C3 counterexample.  The v2 service filters the fetched ids against the
*active* ids only, so a fetched id that is present in the store but
inactive lands in the to-create set and is saved again as a fresh active
row: the claim fails on `CollectJobsService`. -/
theorem resurrection_in_v2_service :
    "a" ∈ filter_existing_jobs ["a"]
      (get_all_active_source_id [⟨"a", false, none⟩]) ∧
    collect_jobs_v2 [⟨"a", false, none⟩] ["a"] =
      [⟨"a", false, none⟩, ⟨"a", true, none⟩] :=
  ⟨by decide, by decide⟩


/-- C3 witness: a closed record survives a v1 collection run in which its
id is fetched again, and a new offer id is reported absent from a store it
does not belong to. -/
theorem no_resurrection_amended_witness :
    (⟨"a", "t", "d", some 3, none, none⟩ : OffreRow) ∈
      collectAndSaveV1 [("langages", ["java"])] 5
        [⟨"a", "t", "d", some 3, none, none⟩] [⟨"a", "dev java", ""⟩] ∧
    (⟨"a", "dev java", ""⟩ : RawJob).id ∉ ({"b"} : Finset String) :=
  ⟨(no_resurrection_amended.2 [("langages", ["java"])] 5
      [⟨"a", "t", "d", some 3, none, none⟩] [⟨"a", "dev java", ""⟩]
      (by decide) ⟨"a", "t", "d", some 3, none, none⟩ (by decide) (by decide)).1,
   no_resurrection_amended.1 [("langages", ["java"])] {"b"}
      [⟨"a", "dev java", ""⟩] ⟨"a", "dev java", ""⟩ (by decide)⟩

/-! ## C4 — closure postcondition -/

/-- C4 counterexample.  The v2 closure operation
`deactivate_jobs_by_source_ids` flips `is_active` to false but writes no
closure timestamp: after closing record `d`, its closure-timestamp field
is still unset, against the claim that closure sets `closedAt` to the
closure time. -/
theorem closure_without_closedAt_in_v2 :
    deactivate_jobs_by_source_ids [⟨"d", true, none⟩] ["d"] =
      [⟨"d", false, none⟩] ∧
    (deactivate_jobs_by_source_ids [⟨"d", true, none⟩] ["d"]).map
      (fun r => r.closedAt) = [none] :=
  ⟨by decide, by decide⟩

/-- C4 amended.  The v2 closure operation sets `is_active := false` on
exactly the listed ids, leaves every other record (the `toSkip` ones)
untouched, and never writes a closure timestamp; the v1 `close_offers`
(modelled from the spec, absent from the source tree) does set
`date_cloture := now` on the listed ids and leaves the others untouched. -/
theorem closure_postcondition_amended :
    (∀ (store : List JobRowV2) (ids : List String),
      deactivate_jobs_by_source_ids store ids =
        store.map (fun r =>
          if r.source_id ∈ ids then { r with is_active := false } else r)) ∧
    (∀ (store : List JobRowV2) (ids : List String),
      (deactivate_jobs_by_source_ids store ids).map (fun r => r.closedAt) =
        store.map (fun r => r.closedAt)) ∧
    (∀ (store : List JobRowV2) (ids : List String), ∀ r ∈ store,
      r.source_id ∉ ids → r ∈ deactivate_jobs_by_source_ids store ids) ∧
    (∀ (now : Int) (ids : List String) (store : List OffreRow), ∀ r ∈ store,
      (r.source_id ∈ ids →
        { r with date_cloture := some now } ∈ close_offers now ids store) ∧
      (r.source_id ∉ ids → r ∈ close_offers now ids store)) := by
  have hmap : ∀ (store : List JobRowV2) (ids : List String),
      deactivate_jobs_by_source_ids store ids =
        store.map (fun r =>
          if r.source_id ∈ ids then { r with is_active := false } else r) := by
    intro store ids
    by_cases h : ids = []
    · subst h
      simp [deactivate_jobs_by_source_ids]
    · simp [deactivate_jobs_by_source_ids, h]
  refine ⟨hmap, ?_, ?_, ?_⟩
  · intro store ids
    rw [hmap, List.map_map]
    refine List.map_congr_left ?_
    intro r _
    by_cases h : r.source_id ∈ ids <;> simp [h]
  · intro store ids r hr hnotin
    rw [hmap]
    rw [show r = (if r.source_id ∈ ids then { r with is_active := false } else r) by
      rw [if_neg hnotin]]
    exact List.mem_map_of_mem _ hr
  · intro now ids store r hr
    constructor
    · intro hin
      rw [show ({ r with date_cloture := some now } : OffreRow) =
          (if r.source_id ∈ ids then { r with date_cloture := some now } else r) by
        rw [if_pos hin]]
      exact List.mem_map_of_mem _ hr
    · intro hnotin
      rw [show r = (if r.source_id ∈ ids then { r with date_cloture := some now }
          else r) by rw [if_neg hnotin]]
      exact List.mem_map_of_mem _ hr


/-- C4 witness: an unlisted record survives the v2 closure untouched, and
the v1 closure stamps a listed record with the closure date. -/
theorem closure_postcondition_amended_witness :
    (⟨"s", true, some 7⟩ : JobRowV2) ∈
      deactivate_jobs_by_source_ids [⟨"s", true, some 7⟩] ["d"] ∧
    ({ (⟨"d", "t", "x", none, none, none⟩ : OffreRow) with
        date_cloture := some 9 } ∈
      close_offers 9 ["d"] [⟨"d", "t", "x", none, none, none⟩]) :=
  ⟨closure_postcondition_amended.2.2.1 [⟨"s", true, some 7⟩] ["d"]
      ⟨"s", true, some 7⟩ (by decide) (by decide),
   (closure_postcondition_amended.2.2.2 9 ["d"]
      [⟨"d", "t", "x", none, none, none⟩] ⟨"d", "t", "x", none, none, none⟩
      (by decide)).1 (by decide)⟩

/-! ## C8 — extraction postcondition -/

theorem updateOffre_eq_map (id : String) (comps : List String) :
    ∀ store : List OffreRow, (storeIds store).Nodup →
      updateOffre id comps store = store.map (fun r =>
        if r.source_id = id then
          { r with competences_extraites := some comps, traite := some true }
        else r) := by
  intro store
  induction store with
  | nil => intro _; rfl
  | cons r rest ih =>
    intro hnd
    have hnd2 : (storeIds rest).Nodup := (List.nodup_cons.mp hnd).2
    have hnotin : r.source_id ∉ storeIds rest := (List.nodup_cons.mp hnd).1
    by_cases hrid : r.source_id = id
    · simp only [updateOffre, if_pos hrid, List.map_cons]
      congr 1
      have : ∀ x ∈ rest, (if x.source_id = id then
          ({ x with competences_extraites := some comps, traite := some true } :
            OffreRow) else x) = x := by
        intro x hx
        rw [if_neg]
        intro hxid
        refine hnotin ?_
        rw [hrid, ← hxid]
        exact List.mem_map_of_mem _ hx
      rw [List.map_congr_left this]
      simp
    · simp only [updateOffre, if_neg hrid, List.map_cons]
      congr 1
      exact ih hnd2

theorem lookupComps_eq_none (id : String) :
    ∀ l : List (String × List String), id ∉ l.map Prod.fst →
      lookupComps id l = none := by
  intro l
  induction l with
  | nil => intro _; rfl
  | cons p rest ih =>
    intro hnotin
    simp only [List.map_cons, List.mem_cons, not_or] at hnotin
    have hne : p.1 ≠ id := fun h => hnotin.1 h.symm
    simp only [lookupComps, if_neg hne, ih hnotin.2]

theorem lookupComps_eq_some (id : String) (v : List String) :
    ∀ l : List (String × List String), (l.map Prod.fst).Nodup →
      (id, v) ∈ l → lookupComps id l = some v := by
  intro l
  induction l with
  | nil => intro _ h; cases h
  | cons p rest ih =>
    intro hnd hmem
    rcases List.mem_cons.mp hmem with rfl | hmem2
    · simp [lookupComps]
    · have hne : p.1 ≠ id := by
        intro he
        have hmm : id ∈ rest.map Prod.fst := List.mem_map_of_mem Prod.fst hmem2
        rw [← he] at hmm
        exact (List.nodup_cons.mp hnd).1 hmm
      simp only [lookupComps, if_neg hne]
      exact ih (List.nodup_cons.mp hnd).2 hmem2


theorem storeIds_map_update (g : OffreRow → OffreRow)
    (hg : ∀ r, (g r).source_id = r.source_id) (store : List OffreRow) :
    storeIds (store.map g) = storeIds store := by
  simp only [storeIds, List.map_map]
  exact List.map_congr_left (fun r _ => hg r)

theorem mettreAJour_eq_map :
    ∀ (mapping : List (String × List String)) (store : List OffreRow),
      (storeIds store).Nodup → (mapping.map Prod.fst).Nodup →
      mettreAJourOffres store mapping = store.map (fun r =>
        match lookupComps r.source_id mapping with
        | some comps =>
          { r with competences_extraites := some comps, traite := some true }
        | none => r) := by
  intro mapping
  induction mapping with
  | nil =>
    intro store _ _
    show store = _
    simp [lookupComps]
  | cons p rest ih =>
    intro store hnd hkeys
    have hstep : mettreAJourOffres store (p :: rest) =
        mettreAJourOffres (updateOffre p.1 p.2 store) rest := rfl
    rw [hstep, updateOffre_eq_map p.1 p.2 store hnd]
    have hpres : ∀ r : OffreRow,
        ((if r.source_id = p.1 then
          { r with competences_extraites := some p.2, traite := some true }
        else r) : OffreRow).source_id = r.source_id := by
      intro r
      split <;> rfl
    rw [ih (store.map _) (by rw [storeIds_map_update _ hpres store]; exact hnd)
      (List.nodup_cons.mp hkeys).2]
    rw [List.map_map]
    refine List.map_congr_left ?_
    intro r _
    simp only [Function.comp]
    by_cases hrid : r.source_id = p.1
    · rw [if_pos hrid]
      have hlk : lookupComps r.source_id rest = none := by
        refine lookupComps_eq_none r.source_id rest ?_
        rw [hrid]
        exact (List.nodup_cons.mp hkeys).1
      have hlk2 : lookupComps r.source_id (p :: rest) = some p.2 := by
        simp [lookupComps, hrid.symm]
      rw [hlk2]
      show (match lookupComps r.source_id rest with
        | some comps =>
          ({ r with competences_extraites := some comps, traite := some true } :
            OffreRow)
        | none =>
          { r with competences_extraites := some p.2, traite := some true }) =
        ({ r with competences_extraites := some p.2, traite := some true } :
          OffreRow)
      rw [hlk]
    · rw [if_neg hrid]
      have hne2 : p.1 ≠ r.source_id := fun h => hrid h.symm
      have hsame : lookupComps r.source_id (p :: rest) =
          lookupComps r.source_id rest := by
        simp [lookupComps, hne2]
      rw [hsame]


theorem mapping_keys_nodup (referentiel : List (String × List String))
    (store : List OffreRow) (hnd : (storeIds store).Nodup) :
    ((competencesParOffre referentiel (store.filter offreAAnalyser)).map
      Prod.fst).Nodup := by
  have h1 : List.Sublist
      (competencesParOffre referentiel (store.filter offreAAnalyser))
      ((store.filter offreAAnalyser).map
        (fun r => (r.source_id, competencesDetectees referentiel r))) :=
    List.filter_sublist _
  have h2 : List.Sublist
      ((competencesParOffre referentiel (store.filter offreAAnalyser)).map
        Prod.fst)
      (((store.filter offreAAnalyser).map
        (fun r => (r.source_id, competencesDetectees referentiel r))).map
        Prod.fst) := h1.map Prod.fst
  rw [List.map_map] at h2
  have h3 : List.Sublist
      ((store.filter offreAAnalyser).map
        (Prod.fst ∘ fun r => (r.source_id, competencesDetectees referentiel r)))
      (store.map (Prod.fst ∘ fun r =>
        (r.source_id, competencesDetectees referentiel r))) :=
    (List.filter_sublist store).map _
  have h4 : List.Sublist
      ((competencesParOffre referentiel (store.filter offreAAnalyser)).map
        Prod.fst) (storeIds store) := by
    refine h2.trans (h3.trans ?_)
    have : store.map (Prod.fst ∘ fun r =>
        (r.source_id, competencesDetectees referentiel r)) = storeIds store := by
      refine List.map_congr_left ?_
      intro r _
      rfl
    rw [this]
  exact hnd.sublist h4

theorem lookup_mapping (referentiel : List (String × List String))
    (store : List OffreRow) (hnd : (storeIds store).Nodup)
    (r : OffreRow) (hr : r ∈ store) :
    lookupComps r.source_id
        (competencesParOffre referentiel (store.filter offreAAnalyser)) =
      if offreAAnalyser r = true ∧ competencesDetectees referentiel r ≠ [] then
        some (competencesDetectees referentiel r)
      else none := by
  split_ifs with hcond
  · refine lookupComps_eq_some r.source_id _ _
      (mapping_keys_nodup referentiel store hnd) ?_
    have hrsel : r ∈ store.filter offreAAnalyser :=
      List.mem_filter.mpr ⟨hr, hcond.1⟩
    refine List.mem_filter.mpr ⟨List.mem_map_of_mem _ hrsel, ?_⟩
    simpa using hcond.2
  · refine lookupComps_eq_none r.source_id _ ?_
    intro hmem
    obtain ⟨p, hp, hpid⟩ := List.mem_map.mp hmem
    have hp2 := List.mem_filter.mp hp
    obtain ⟨r2, hr2sel, hr2eq⟩ := List.mem_map.mp hp2.1
    have hr2store : r2 ∈ store := List.mem_of_mem_filter hr2sel
    have hr2id : r2.source_id = r.source_id := by
      rw [← hpid, ← hr2eq]
    obtain rfl : r2 = r := nodup_storeIds_inj hnd hr2store hr hr2id
    refine hcond ⟨List.of_mem_filter hr2sel, ?_⟩
    have := hp2.2
    rw [← hr2eq] at this
    simpa using this


/-- C8 amended.  Under unique store ids, the extraction stage updates
exactly the selected records with at least one detected skill — those get
`traite = true` and their tag list set to the detected skills — while
selected records with zero detected skills are left completely untouched
(not marked processed); the detection rows are exactly one per
(record, detected label) pair of the records with detections. -/
theorem extraction_postcondition_amended
    (referentiel : List (String × List String)) (store : List OffreRow)
    (hnd : (storeIds store).Nodup) :
    (analyze_jobs_competences referentiel false store).1 =
      store.map (fun r =>
        if offreAAnalyser r = true ∧ competencesDetectees referentiel r ≠ [] then
          { r with
            traite := some true,
            competences_extraites := some (competencesDetectees referentiel r) }
        else r) ∧
    (analyze_jobs_competences referentiel false store).2 =
      lflat (((store.filter offreAAnalyser).filter
          (fun r => competencesDetectees referentiel r ≠ [])).map
        (fun r => (competencesDetectees referentiel r).map
          (fun c => (r.source_id, c)))) := by
  have hdef : analyze_jobs_competences referentiel false store =
      (mettreAJourOffres store
        (competencesParOffre referentiel (store.filter offreAAnalyser)),
       detectionsDuMapping
        (competencesParOffre referentiel (store.filter offreAAnalyser))) := rfl
  constructor
  · rw [hdef]
    show mettreAJourOffres store _ = _
    rw [mettreAJour_eq_map _ store hnd (mapping_keys_nodup referentiel store hnd)]
    refine List.map_congr_left ?_
    intro r hr
    rw [lookup_mapping referentiel store hnd r hr]
    split_ifs with h
    · rfl
    · rfl
  · rw [hdef]
    show detectionsDuMapping _ = _
    unfold detectionsDuMapping competencesParOffre
    rw [List.filter_map, List.map_map]
    have hfil : List.filter ((fun p => decide (p.2 ≠ [])) ∘ fun r =>
          (r.source_id, competencesDetectees referentiel r))
        (List.filter offreAAnalyser store) =
        List.filter (fun r => decide (competencesDetectees referentiel r ≠ []))
          (List.filter offreAAnalyser store) :=
      List.filter_congr (fun a _ => rfl)
    rw [hfil]
    refine congrArg lflat (List.map_congr_left ?_)
    intro a _
    rfl

/-- C8 counterexample.  A selected record whose text contains no
referenced skill is not updated at all: after the stage it still has
`traite = false`, against the claim that every analysed record ends with
`processed = true`. -/
theorem extraction_skips_zero_skill_records :
    (analyze_jobs_competences [("langages", ["java"])] false
      [⟨"b", "plombier", "", none, some false, none⟩]).1 =
      [⟨"b", "plombier", "", none, some false, none⟩] ∧
    (⟨"b", "plombier", "", none, some false, none⟩ : OffreRow).traite ≠
      some true :=
  ⟨by decide, by decide⟩


/-- C8 witness: the amended postcondition evaluated on a two-record store,
one record with a detected skill and one without. -/
theorem extraction_postcondition_amended_witness :
    (analyze_jobs_competences [("langages", ["java"])] false
      [⟨"a", "dev java", "", none, some false, none⟩,
       ⟨"b", "plombier", "", none, some false, none⟩]).1 =
      [⟨"a", "dev java", "", none, some false, none⟩,
       ⟨"b", "plombier", "", none, some false, none⟩].map (fun r =>
        if offreAAnalyser r = true ∧
            competencesDetectees [("langages", ["java"])] r ≠ [] then
          { r with
            traite := some true,
            competences_extraites :=
              some (competencesDetectees [("langages", ["java"])] r) }
        else r) ∧
    (analyze_jobs_competences [("langages", ["java"])] false
      [⟨"a", "dev java", "", none, some false, none⟩,
       ⟨"b", "plombier", "", none, some false, none⟩]).2 =
      lflat ((([⟨"a", "dev java", "", none, some false, none⟩,
          ⟨"b", "plombier", "", none, some false, none⟩].filter
            offreAAnalyser).filter
          (fun r => competencesDetectees [("langages", ["java"])] r ≠ [])).map
        (fun r => (competencesDetectees [("langages", ["java"])] r).map
          (fun c => (r.source_id, c)))) :=
  extraction_postcondition_amended [("langages", ["java"])]
    [⟨"a", "dev java", "", none, some false, none⟩,
     ⟨"b", "plombier", "", none, some false, none⟩] (by decide)

end DatavizFT
